import Mathlib

/-!
Shallow embedding of the notebook `2_Attention.ipynb` (repository unpackTNN).

The notebook has two code cells:
* a character-level tokenizer (`vocab`, `encode`, `decode`), a toy dataset
  built from the sentence "Attention is all you need", and a `get_batch`
  slicing function;
* a single head of causal scaled dot-product attention over a batch
  `x : (B, T, C)` with projection layers `key`, `query`, `value` of type
  `nn.Linear(C, head_size, bias=False)`.

Tensors of floats are embedded as functions `Fin B → Fin T → Fin C → ℝ`
(real-arithmetic idealisation of IEEE floats); integer tensors and the
tokenizer are embedded computably over `ℕ` / `List`.
-/

namespace UnpackTNN

/-! ### Tokenizer cell -/

/-- `string.whitespace` in CPython: space, tab, newline, carriage return,
vertical tab, form feed. -/
def whitespace : List Char := " \t\n\r\x0b\x0c".data

/-- `string.ascii_letters`: lowercase then uppercase. -/
def ascii_letters : List Char :=
  "abcdefghijklmnopqrstuvwxyzABCDEFGHIJKLMNOPQRSTUVWXYZ".data

/-- `string.digits`. -/
def digits : List Char := "0123456789".data

/-- `string.punctuation`. -/
def punctuation : List Char := "!\"#$%&\x27()*+,-./:;<=>?@[\\]^_`\x7b|\x7d~".data

/-- `vocab = string.whitespace + string.ascii_letters + string.digits +
string.punctuation`. -/
def vocab : List Char := whitespace ++ ascii_letters ++ digits ++ punctuation

/-- `vocab_size = len(vocab)`. -/
def vocab_size : ℕ := vocab.length

/-- First index of `c` in a list, offset by `n`; models the dictionary
`vtoi = { ch:i for i,ch in enumerate(vocab)}` (the entries of `vocab` are
pairwise distinct, so first occurrence agrees with the dict). -/
def lookupIdx (c : Char) : List Char → ℕ → Option ℕ
  | [], _ => none
  | d :: ds, n => if d = c then some n else lookupIdx c ds (n + 1)

/-- `vtoi[ch]`; `none` models the `KeyError` on out-of-vocabulary characters. -/
def vtoi (c : Char) : Option ℕ := lookupIdx c vocab 0

/-- `itov[i]`; total on `0 .. vocab_size - 1`. -/
def itov (i : ℕ) : Option Char := vocab.get? i

/-- `encode = lambda v: [vtoi[ch] for ch in v]`; the comprehension raises
`KeyError` on a missing key, modelled by `none`. -/
def encode : List Char → Option (List ℕ)
  | [] => some []
  | c :: cs => do
    let i ← vtoi c
    let is ← encode cs
    pure (i :: is)

/-- `decode = lambda t: [itov[i] for i in t]`. -/
def decode : List ℕ → Option (List Char)
  | [] => some []
  | i :: is => do
    let c ← itov i
    let cs ← decode is
    pure (c :: cs)

/-- `text = "Attention is all you need"`. -/
def text : List Char := "Attention is all you need".data

/-- `text_enc = encode(text)` (the encoding succeeds on this text). -/
def text_enc : Option (List ℕ) := encode text

/-- `data = torch.LongTensor(text_enc)`. -/
def data : List ℕ := text_enc.getD []

/-- `block_size = 4`. -/
def block_size : ℕ := 4

/-- `n_embd = 5`. -/
def n_embd : ℕ := 5

/-- `batch_size = 2`. -/
def batch_size : ℕ := 2

/-- `get_batch`: `ix` stands for the tensor drawn by
`torch.randint(0, len(text_enc)-block_size-1, (block_size,))` (note the shape
`(block_size,)`, not `(batch_size,)`); the rows are the slices
`data[i:i+block_size]` and `data[i+1:i+block_size+1]`. -/
def get_batch (ix : List ℕ) : List (List ℕ) × List (List ℕ) :=
  (ix.map fun i => (data.drop i).take block_size,
   ix.map fun i => (data.drop (i + 1)).take block_size)

/-! ### Attention cell

`head_size = 6`; `x = emb_pos + emb_tok` has shape `(B, T, C)` with
`B, T, C = x.shape`; then
```
key   = nn.Linear(C, head_size, bias=False)
query = nn.Linear(C, head_size, bias=False)
value = nn.Linear(C, head_size, bias=False)
k = key(x); q = query(x)
W = q @ k.transpose(-2, -1)
W = W * C ** -0.5
tril = torch.tril(torch.ones(T,T))
W = W.masked_fill(tril == 0, float(-inf))
W = F.softmax(W, dim=-1)
v = value(x)
out = W @ v
```
`masked_fill` introduces `-inf`, so the masked score matrix lives in `EReal`
(reals with `⊥ = -inf`); `F.softmax` is embedded exactly, with
`exp(-inf) = 0`.  `F.softmax` subtracts the row maximum before
exponentiating, which in exact real arithmetic leaves the value unchanged,
so the embedding uses the unshifted form. -/

/-- `head_size = 6`. -/
def head_size : ℕ := 6

variable {B T C H : ℕ}

/-- `nn.Linear(C, H, bias=False)` applied to a `(B, T, C)` batch: the layer
stores a weight of shape `(H, C)` and computes `y = x @ W.T`, position-wise. -/
noncomputable def linear (W : Fin H → Fin C → ℝ)
    (x : Fin B → Fin T → Fin C → ℝ) : Fin B → Fin T → Fin H → ℝ :=
  fun b t h => ∑ c, x b t c * W h c

/-- `W = q @ k.transpose(-2, -1)`: batched query-key dot products, shape
`(B, T, T)`. -/
noncomputable def rawScores (q k : Fin B → Fin T → Fin H → ℝ) :
    Fin B → Fin T → Fin T → ℝ :=
  fun b i j => ∑ h, q b i h * k b j h

/-- `W = W * C ** -0.5`: the code multiplies by `C ** -0.5` where `C` is the
last dimension of `x` (the embedding width), not the head size. -/
noncomputable def scaledScores (C : ℕ) (s : Fin B → Fin T → Fin T → ℝ) :
    Fin B → Fin T → Fin T → ℝ :=
  fun b i j => s b i j * (C : ℝ) ^ (-(1 / 2) : ℝ)

/-- `tril = torch.tril(torch.ones(T,T))`: ones on and below the diagonal,
zeros strictly above. -/
def tril (T : ℕ) : Fin T → Fin T → ℝ :=
  fun i j => if (j : ℕ) ≤ (i : ℕ) then 1 else 0

/-- `W = W.masked_fill(tril == 0, float(-inf))`: entries where the mask is
zero become `-inf` (`⊥ : EReal`), the rest keep their real value. -/
noncomputable def maskedScores (s : Fin B → Fin T → Fin T → ℝ) :
    Fin B → Fin T → Fin T → EReal :=
  fun b i j => if tril T i j = 0 then (⊥ : EReal) else (s b i j : EReal)

/-- IEEE `exp` on a possibly `-inf` score: `exp(-inf) = 0`.  (`⊤` never
occurs in a masked score row; `masked_fill` only introduces `⊥`.) -/
noncomputable def expE (x : EReal) : ℝ :=
  if x = ⊥ then 0 else Real.exp x.toReal

/-- `F.softmax(W, dim=-1)` on one row: `exp` of each entry divided by the
row sum of `exp`. -/
noncomputable def softmaxRow (s : Fin T → EReal) : Fin T → ℝ :=
  fun j => expE (s j) / ∑ j', expE (s j')

/-- The attention-weight matrix `W` after scaling, masking and softmax, as a
function of the input and the query/key projection weights. -/
noncomputable def attnWeights (Wq Wk : Fin H → Fin C → ℝ)
    (x : Fin B → Fin T → Fin C → ℝ) : Fin B → Fin T → Fin T → ℝ :=
  fun b i =>
    softmaxRow (maskedScores
      (scaledScores C (rawScores (linear Wq x) (linear Wk x))) b i)

/-- `out = W @ v`: weighted aggregation of the (projected) value rows. -/
noncomputable def aggregate (w : Fin B → Fin T → Fin T → ℝ)
    (v : Fin B → Fin T → Fin H → ℝ) : Fin B → Fin T → Fin H → ℝ :=
  fun b i h => ∑ j, w b i j * v b j h

/-- The whole cell: `out = softmax(mask(q @ kᵀ * C ** -0.5)) @ v` with
`q = query(x)`, `k = key(x)`, `v = value(x)`. -/
noncomputable def attnOut (Wq Wk Wv : Fin H → Fin C → ℝ)
    (x : Fin B → Fin T → Fin C → ℝ) : Fin B → Fin T → Fin H → ℝ :=
  aggregate (attnWeights Wq Wk x) (linear Wv x)

/-! ### The cell as a state transformer

The notebook cell reads `x` and the three projection weights, and binds the
new variables `k`, `q`, `W`, `v`, `out`; it assigns to none of its inputs.
`CellState` carries every variable of the cell and `runCell` is the cell's
line-by-line effect on it (`W` holds the final, softmax-normalised matrix,
as after the last reassignment of `W` in the cell). -/

structure CellState (B T C H : ℕ) where
  x : Fin B → Fin T → Fin C → ℝ
  Wq : Fin H → Fin C → ℝ
  Wk : Fin H → Fin C → ℝ
  Wv : Fin H → Fin C → ℝ
  k : Fin B → Fin T → Fin H → ℝ
  q : Fin B → Fin T → Fin H → ℝ
  W : Fin B → Fin T → Fin T → ℝ
  v : Fin B → Fin T → Fin H → ℝ
  out : Fin B → Fin T → Fin H → ℝ

/-- Run the attention cell on a state: the successive lines of the cell,
each reading only `x` and the projection weights and the locals bound by
earlier lines. -/
noncomputable def runCell (s : CellState B T C H) : CellState B T C H :=
  let k := linear s.Wk s.x
  let q := linear s.Wq s.x
  let W1 := rawScores q k
  let W2 := scaledScores C W1
  let W3 := fun b i => softmaxRow (maskedScores W2 b i)
  let v := linear s.Wv s.x
  let out := aggregate W3 v
  { s with k := k, q := q, W := W3, v := v, out := out }

/-! ### A checked forward, for the failure-condition claim

The only operation of the cell that validates anything at run time is the
linear projection: applying `nn.Linear(C, H)` to a batch whose last
dimension is not `C` raises a shape error.  `linearChecked` is that forward
including the check.  `attentionCell` is the cell built the way the source
builds it — the three layers are constructed with `in_features = C` where
`B, T, C = x.shape` — so the check can never fire; no dimension of the
input is otherwise validated (there is no `T > 0` or `head_size > 0`
check anywhere in the cell). -/

/-- `nn.Linear` forward with the library's input-dimension check. -/
noncomputable def linearChecked (C H : ℕ) (W : Fin H → Fin C → ℝ) {B T Cx : ℕ}
    (x : Fin B → Fin T → Fin Cx → ℝ) : Option (Fin B → Fin T → Fin H → ℝ) :=
  if h : Cx = C then
    some (linear W (fun b t c => x b t (Fin.cast h.symm c)))
  else none

/-- The attention cell with every fallible operation routed through its
check; `hs` is `head_size`. -/
noncomputable def attentionCell (hs : ℕ) {B T C : ℕ}
    (Wk Wq Wv : Fin hs → Fin C → ℝ) (x : Fin B → Fin T → Fin C → ℝ) :
    Option (Fin B → Fin T → Fin hs → ℝ) :=
  (linearChecked C hs Wk x).bind fun k =>
  (linearChecked C hs Wq x).bind fun q =>
  (linearChecked C hs Wv x).bind fun v =>
  some (aggregate (fun b i =>
    softmaxRow (maskedScores (scaledScores C (rawScores q k)) b i)) v)

/-- Serialise a `(B, T, H)` tensor to nested lists, to state shape facts. -/
def toLists (f : Fin B → Fin T → Fin H → ℝ) : List (List (List ℝ)) :=
  (List.finRange B).map fun b =>
    (List.finRange T).map fun t =>
      (List.finRange H).map fun h => f b t h

/-! ### Concrete instances used by witnesses and counterexamples -/

/-- A `(1, 1, 5)` input whose single position is the first basis vector. -/
def xC1 : Fin 1 → Fin 1 → Fin 5 → ℝ := fun _ _ c => if c = 0 then 1 else 0

/-- A `(6, 5)` projection weight with a single one at `(0, 0)`. -/
def wC1 : Fin 6 → Fin 5 → ℝ := fun h c => if h = 0 ∧ c = 0 then 1 else 0

/-- A zero `(1, 1)` projection weight. -/
def w11 : Fin 1 → Fin 1 → ℝ := fun _ _ => 0

/-- A zero `(1, 2, 1)` input batch. -/
def x121 : Fin 1 → Fin 2 → Fin 1 → ℝ := fun _ _ _ => 0

/-- A constant `(1, 2, 1)` value tensor. -/
def v121a : Fin 1 → Fin 2 → Fin 1 → ℝ := fun _ _ _ => 1

/-- A `(1, 2, 1)` value tensor differing from `v121a` only at position 1. -/
def v121b : Fin 1 → Fin 2 → Fin 1 → ℝ := fun _ t _ => if t = 1 then 2 else 1

/-- A `(1, 0, 5)` input: an empty sequence, `T = 0`. -/
def xT0 : Fin 1 → Fin 0 → Fin 5 → ℝ := fun _ t _ => t.elim0

/-- A zero `(6, 5)` projection weight. -/
def w65 : Fin 6 → Fin 5 → ℝ := fun _ _ => 0

/-- A `(0, 5)` projection weight: head size zero. -/
def w05 : Fin 0 → Fin 5 → ℝ := fun h _ => h.elim0

/-- A zero `(1, 4, 5)` input batch. -/
def x145 : Fin 1 → Fin 4 → Fin 5 → ℝ := fun _ _ _ => 0

/-- An all-zero cell state at shape `(1, 1, 1, 1)`. -/
def cell0 : CellState 1 1 1 1 :=
  ⟨fun _ _ _ => 0, fun _ _ => 0, fun _ _ => 0, fun _ _ => 0, fun _ _ _ => 0,
   fun _ _ _ => 0, fun _ _ _ => 0, fun _ _ _ => 0, fun _ _ _ => 0⟩

/-! ### Helper lemmas on the softmax of a masked row -/

theorem expE_bot : expE (⊥ : EReal) = 0 := by simp [expE]

theorem expE_coe (r : ℝ) : expE (r : EReal) = Real.exp r := by
  simp [expE]

theorem expE_nonneg (x : EReal) : 0 ≤ expE x := by
  unfold expE
  split
  · exact le_refl 0
  · exact (Real.exp_pos _).le

theorem maskedScores_of_le (s : Fin B → Fin T → Fin T → ℝ) {b : Fin B}
    {i j : Fin T} (h : (j : ℕ) ≤ (i : ℕ)) :
    maskedScores s b i j = (s b i j : EReal) := by
  simp [maskedScores, tril, h]

theorem maskedScores_of_lt (s : Fin B → Fin T → Fin T → ℝ) {b : Fin B}
    {i j : Fin T} (h : (i : ℕ) < (j : ℕ)) :
    maskedScores s b i j = (⊥ : EReal) := by
  simp [maskedScores, tril, Nat.not_le_of_lt h]

/-- The softmax denominator of row `i` is positive: the diagonal entry is
unmasked and contributes a positive exponential. -/
theorem masked_denom_pos (s : Fin B → Fin T → Fin T → ℝ) (b : Fin B) (i : Fin T) :
    0 < ∑ j, expE (maskedScores s b i j) := by
  refine Finset.sum_pos' (fun j _ => expE_nonneg _) ⟨i, Finset.mem_univ i, ?_⟩
  rw [maskedScores_of_le s (le_refl _), expE_coe]
  exact Real.exp_pos _

theorem softmax_masked_zero (s : Fin B → Fin T → Fin T → ℝ) (b : Fin B)
    {i j : Fin T} (h : (i : ℕ) < (j : ℕ)) :
    softmaxRow (maskedScores s b i) j = 0 := by
  unfold softmaxRow
  rw [maskedScores_of_lt s h, expE_bot, zero_div]

theorem softmax_masked_sum (s : Fin B → Fin T → Fin T → ℝ) (b : Fin B) (i : Fin T) :
    ∑ j, softmaxRow (maskedScores s b i) j = 1 := by
  unfold softmaxRow
  rw [← Finset.sum_div]
  exact div_self (ne_of_gt (masked_denom_pos s b i))

theorem attnWeights_eq (Wq Wk : Fin H → Fin C → ℝ) (x : Fin B → Fin T → Fin C → ℝ)
    (b : Fin B) (i : Fin T) :
    attnWeights Wq Wk x b i =
      softmaxRow (maskedScores
        (scaledScores C (rawScores (linear Wq x) (linear Wk x))) b i) := rfl

/-- On the one-hot instance `xC1`/`wC1` the raw query-key dot product is 1. -/
theorem rawScores_xC1 :
    rawScores (linear wC1 xC1) (linear wC1 xC1) 0 0 0 = 1 := by
  simp [rawScores, linear, xC1, wC1, Fin.sum_univ_five, Fin.sum_univ_six]

/-- Applying a layer to a batch whose last dimension equals its
`in_features` reduces to the unchecked projection. -/
theorem linearChecked_self (C H : ℕ) (W : Fin H → Fin C → ℝ) {B T : ℕ}
    (x : Fin B → Fin T → Fin C → ℝ) :
    linearChecked C H W x = some (linear W x) := by
  unfold linearChecked
  rw [dif_pos rfl]
  rfl

/-- The cell never fails: its layers are built with `in_features` equal to
the input's own last dimension. -/
theorem attentionCell_eq (hs : ℕ) {B T C : ℕ}
    (Wk Wq Wv : Fin hs → Fin C → ℝ) (x : Fin B → Fin T → Fin C → ℝ) :
    attentionCell hs Wk Wq Wv x = some (attnOut Wq Wk Wv x) := by
  rw [attentionCell, linearChecked_self, linearChecked_self, linearChecked_self]
  rfl

theorem toLists_shape (f : Fin B → Fin T → Fin H → ℝ) :
    (toLists f).length = B
    ∧ (toLists f).map List.length = List.replicate B T
    ∧ (toLists f).map (fun s => s.map List.length)
        = List.replicate B (List.replicate T H) := by
  refine ⟨?_, ?_, ?_⟩ <;>
    simp [toLists, List.map_map, Function.comp_def, List.map_const',
      List.length_finRange]

/-- If `c` occurs in `l`, linear search from offset `n` finds its first
index and the list holds `c` there. -/
theorem lookupIdx_spec (c : Char) (l : List Char) : ∀ n : ℕ, c ∈ l →
    ∃ m, lookupIdx c l n = some (n + m) ∧ l.get? m = some c := by
  induction l with
  | nil =>
    intro n h
    exact absurd h (List.not_mem_nil c)
  | cons d ds ih =>
    intro n h
    by_cases hd : d = c
    · refine ⟨0, ?_, ?_⟩
      · simp [lookupIdx, hd]
      · simp [hd]
    · have hmem : c ∈ ds := by
        rcases List.mem_cons.mp h with h1 | h2
        · exact absurd h1.symm hd
        · exact h2
      obtain ⟨m, h1, h2⟩ := ih (n + 1) hmem
      refine ⟨m + 1, ?_, ?_⟩
      · simp only [lookupIdx]
        rw [if_neg hd, h1]
        congr 1
        omega
      · simpa using h2

/-- An in-vocabulary character encodes to an id that decodes back to it. -/
theorem vtoi_itov {c : Char} (h : c ∈ vocab) :
    ∃ i, vtoi c = some i ∧ itov i = some c := by
  obtain ⟨m, h1, h2⟩ := lookupIdx_spec c vocab 0 h
  refine ⟨0 + m, h1, ?_⟩
  rw [Nat.zero_add]
  exact h2

theorem encode_decode_aux (s : List Char) (h : ∀ c ∈ s, c ∈ vocab) :
    (encode s).bind decode = some s := by
  induction s with
  | nil => rfl
  | cons c cs ih =>
    obtain ⟨i, hv, hi⟩ := vtoi_itov (h c (List.mem_cons_self c cs))
    have hcs := ih fun d hd => h d (List.mem_cons_of_mem c hd)
    cases hec : encode cs with
    | none =>
      rw [hec] at hcs
      simp at hcs
    | some es =>
      rw [hec] at hcs
      simp only [Option.some_bind] at hcs
      simp [encode, decode, hv, hec, hi, hcs]

/-! ### Claim theorems -/

/-- Claim C1 (code bug): the code forms the pre-mask score as
`(q · k) * C ** -0.5` with `C = n_embd = 5`, not `head_size ** -0.5` with
`head_size = 6` as the claim (and the notebook's own markdown, which says to
divide by the square root of the query/key dimension) requires.  On a
one-hot input where the raw dot product is exactly 1, the code's pre-mask
score is `5 ^ (-1/2)`, which differs from `(q · k) * 6 ^ (-1/2)`. -/
theorem attention_scale_uses_C_not_H :
    rawScores (linear wC1 xC1) (linear wC1 xC1) 0 0 0 = 1
    ∧ scaledScores n_embd (rawScores (linear wC1 xC1) (linear wC1 xC1)) 0 0 0
        = (n_embd : ℝ) ^ (-(1 / 2) : ℝ)
    ∧ scaledScores n_embd (rawScores (linear wC1 xC1) (linear wC1 xC1)) 0 0 0
        ≠ rawScores (linear wC1 xC1) (linear wC1 xC1) 0 0 0
            * (head_size : ℝ) ^ (-(1 / 2) : ℝ) := by
  refine ⟨rawScores_xC1, ?_, ?_⟩
  · rw [scaledScores, rawScores_xC1, one_mul]
  · rw [scaledScores, rawScores_xC1, one_mul, one_mul]
    have h5 : ((n_embd : ℕ) : ℝ) ^ (-(1 / 2) : ℝ)
        = (((n_embd : ℕ) : ℝ) ^ ((1 / 2) : ℝ))⁻¹ :=
      Real.rpow_neg (by norm_num [n_embd]) _
    have h6 : ((head_size : ℕ) : ℝ) ^ (-(1 / 2) : ℝ)
        = (((head_size : ℕ) : ℝ) ^ ((1 / 2) : ℝ))⁻¹ :=
      Real.rpow_neg (by norm_num [head_size]) _
    intro heq
    rw [h5, h6] at heq
    have heq2 := inv_injective heq
    have hlt : ((n_embd : ℕ) : ℝ) ^ ((1 / 2) : ℝ)
        < ((head_size : ℕ) : ℝ) ^ ((1 / 2) : ℝ) := by
      apply Real.rpow_lt_rpow (by norm_num [n_embd])
      · norm_num [n_embd, head_size]
      · norm_num
    exact absurd heq2 (ne_of_lt hlt)

/-- Claim C2: for every batch element `b` and query position `i`, the
attention weights over key positions `j ≤ i` sum to 1, and the weight at
every `j > i` is exactly 0. -/
theorem attention_row_stochastic (B T C H : ℕ) (Wq Wk : Fin H → Fin C → ℝ)
    (x : Fin B → Fin T → Fin C → ℝ) (b : Fin B) (i : Fin T) :
    (∑ j ∈ Finset.univ.filter (fun j : Fin T => (j : ℕ) ≤ (i : ℕ)),
        attnWeights Wq Wk x b i j) = 1
    ∧ ∀ j : Fin T, (i : ℕ) < (j : ℕ) → attnWeights Wq Wk x b i j = 0 := by
  have hz : ∀ j : Fin T, (i : ℕ) < (j : ℕ) → attnWeights Wq Wk x b i j = 0 := by
    intro j hj
    rw [attnWeights_eq]
    exact softmax_masked_zero _ _ hj
  refine ⟨?_, hz⟩
  rw [Finset.sum_filter_of_ne]
  · simp only [attnWeights_eq]
    exact softmax_masked_sum _ b i
  · intro j _ hne
    by_contra hle
    exact hne (hz j (Nat.lt_of_not_le hle))

/-- Witness for C2 at `B = 1`, `T = 2`, `i = 0`, `j = 1`. -/
theorem attention_row_stochastic_witness :
    ((0 : Fin 2) : ℕ) < ((1 : Fin 2) : ℕ)
    ∧ attnWeights w11 w11 x121 0 0 1 = 0 :=
  ⟨by decide, (attention_row_stochastic 1 2 1 1 w11 w11 x121 0 0).2 1 (by decide)⟩

/-- Claim C3: two-run causality.  Running the aggregation with the same
input and projections on two value tensors that differ only in row
`(b, j)` gives identical outputs at every position `i < j` of batch
element `b`. -/
theorem attention_causality (B T C H : ℕ) (Wq Wk : Fin H → Fin C → ℝ)
    (x : Fin B → Fin T → Fin C → ℝ) (v v' : Fin B → Fin T → Fin H → ℝ)
    (b : Fin B) (i j : Fin T) (hij : (i : ℕ) < (j : ℕ))
    (hvv : ∀ (b' : Fin B) (t : Fin T) (h : Fin H),
      b' ≠ b ∨ t ≠ j → v b' t h = v' b' t h) :
    ∀ h : Fin H,
      aggregate (attnWeights Wq Wk x) v b i h
        = aggregate (attnWeights Wq Wk x) v' b i h := by
  intro h
  unfold aggregate
  refine Finset.sum_congr rfl fun t _ => ?_
  by_cases ht : t = j
  · subst ht
    rw [attnWeights_eq, softmax_masked_zero _ _ hij, zero_mul, zero_mul]
  · rw [hvv b t h (Or.inr ht)]

/-- Witness for C3: `v121a` and `v121b` differ only at position `j = 1`,
and the outputs at position `i = 0` agree. -/
theorem attention_causality_witness :
    ((0 : Fin 2) : ℕ) < ((1 : Fin 2) : ℕ)
    ∧ aggregate (attnWeights w11 w11 x121) v121a 0 0 0
        = aggregate (attnWeights w11 w11 x121) v121b 0 0 0 :=
  ⟨by decide,
   attention_causality 1 2 1 1 w11 w11 x121 v121a v121b 0 0 1 (by decide)
     (by
       intro b' t k hor
       fin_cases t
       · simp [v121a, v121b]
       · rcases hor with h1 | h2
         · exact absurd (Subsingleton.elim b' 0) h1
         · exact absurd rfl h2) 0⟩

/-- Claim C4 (amended): the projection forward fails exactly when the
input's last dimension differs from the layer's configured input dimension,
and the attention cell itself — whose layers are constructed from the
input's own shape — never fails, for any `T` and any head size. -/
theorem attention_failure_conditions :
    (∀ (B T Cx C H : ℕ) (W : Fin H → Fin C → ℝ)
        (x : Fin B → Fin T → Fin Cx → ℝ),
      linearChecked C H W x = none ↔ Cx ≠ C)
    ∧ ∀ (hs : ℕ) (B T C : ℕ) (Wk Wq Wv : Fin hs → Fin C → ℝ)
        (x : Fin B → Fin T → Fin C → ℝ),
      attentionCell hs Wk Wq Wv x = some (attnOut Wq Wk Wv x) := by
  constructor
  · intro B T Cx C H W x
    unfold linearChecked
    split
    · rename_i h
      simp [h]
    · rename_i h
      simp [h]
  · intro hs B T C Wk Wq Wv x
    exact attentionCell_eq hs Wk Wq Wv x

/-- Counterexample to C4 as stated: the computation succeeds (returns a
value, raising nothing) on an input with `T = 0` and on a head size of 0,
though the claim requires an `InvalidDimension` failure whenever `T ≤ 0`
or `H ≤ 0`. -/
theorem attention_no_dimension_validation :
    (attentionCell head_size w65 w65 w65 xT0).isSome = true
    ∧ (attentionCell 0 w05 w05 w05 x145).isSome = true := by
  constructor
  · rw [attentionCell_eq]
    rfl
  · rw [attentionCell_eq]
    rfl

/-- Claim C5: shape contract.  On a `(2, 4, 5)` input with `head_size = 6`
the output has shape `(2, 4, 6)`; in general the output of a `(B, T, C)`
input has shape `(B, T, H)`. -/
theorem attention_output_shape :
    (∀ (Wq Wk Wv : Fin head_size → Fin n_embd → ℝ)
        (x : Fin 2 → Fin 4 → Fin n_embd → ℝ),
      (toLists (attnOut Wq Wk Wv x)).length = 2
      ∧ (toLists (attnOut Wq Wk Wv x)).map List.length = List.replicate 2 4
      ∧ (toLists (attnOut Wq Wk Wv x)).map (fun s => s.map List.length)
          = List.replicate 2 (List.replicate 4 head_size))
    ∧ ∀ (B T C H : ℕ) (Wq Wk Wv : Fin H → Fin C → ℝ)
        (x : Fin B → Fin T → Fin C → ℝ),
      (toLists (attnOut Wq Wk Wv x)).length = B
      ∧ (toLists (attnOut Wq Wk Wv x)).map List.length = List.replicate B T
      ∧ (toLists (attnOut Wq Wk Wv x)).map (fun s => s.map List.length)
          = List.replicate B (List.replicate T H) :=
  ⟨fun Wq Wk Wv x => toLists_shape (attnOut Wq Wk Wv x),
   fun _ _ _ _ Wq Wk Wv x => toLists_shape (attnOut Wq Wk Wv x)⟩

/-- Claim C6: for `T = 4` the mask equals the literal lower-triangular 4×4
matrix of ones; in general `tril T` is 1 exactly at `j ≤ i` and 0 exactly
at `j > i`. -/
theorem tril_is_lower_triangular :
    (∀ i j : Fin 4, tril 4 i j
        = !![(1 : ℝ), 0, 0, 0; 1, 1, 0, 0; 1, 1, 1, 0; 1, 1, 1, 1] i j)
    ∧ ∀ (T : ℕ) (i j : Fin T),
        (tril T i j = 1 ↔ (j : ℕ) ≤ (i : ℕ))
        ∧ (tril T i j = 0 ↔ (i : ℕ) < (j : ℕ)) := by
  constructor
  · intro i j
    fin_cases i <;> fin_cases j <;> norm_num [tril]
  · intro T i j
    unfold tril
    by_cases h : (j : ℕ) ≤ (i : ℕ)
    · rw [if_pos h]
      refine ⟨⟨fun _ => h, fun _ => rfl⟩, ?_, ?_⟩
      · intro h10
        exact absurd h10 one_ne_zero
      · intro hlt
        exact absurd h (Nat.not_le_of_lt hlt)
    · rw [if_neg h]
      refine ⟨⟨?_, fun hle => absurd hle h⟩, ⟨fun _ => Nat.lt_of_not_le h, fun _ => rfl⟩⟩
      intro h01
      exact absurd h01.symm one_ne_zero

/-- Claim C7: degenerate `T = 1` case — the single attention weight is
exactly 1 and the output row equals the projected value row exactly. -/
theorem attention_single_position (B C H : ℕ) (Wq Wk Wv : Fin H → Fin C → ℝ)
    (x : Fin B → Fin 1 → Fin C → ℝ) (b : Fin B) (h : Fin H) :
    attnWeights Wq Wk x b 0 0 = 1
    ∧ attnOut Wq Wk Wv x b 0 h = linear Wv x b 0 h := by
  have hw : attnWeights Wq Wk x b 0 0 = 1 := by
    have hsum := softmax_masked_sum
      (scaledScores C (rawScores (linear Wq x) (linear Wk x))) b (0 : Fin 1)
    rw [Fin.sum_univ_one] at hsum
    rw [attnWeights_eq]
    exact hsum
  refine ⟨hw, ?_⟩
  unfold attnOut aggregate
  rw [Fin.sum_univ_one, hw, one_mul]

/-- Claim C8: the cell is a pure function of `x` and the three projection
weights.  Running the cell leaves `x`, `Wq`, `Wk`, `Wv` unchanged, its
`out` is exactly `attnOut` of those inputs, and two runs from states
agreeing on those inputs produce the same output. -/
theorem attention_cell_pure (B T C H : ℕ) (s : CellState B T C H) :
    (runCell s).x = s.x ∧ (runCell s).Wq = s.Wq ∧ (runCell s).Wk = s.Wk
    ∧ (runCell s).Wv = s.Wv
    ∧ (runCell s).out = attnOut s.Wq s.Wk s.Wv s.x
    ∧ ∀ s' : CellState B T C H,
        s.x = s'.x → s.Wq = s'.Wq → s.Wk = s'.Wk → s.Wv = s'.Wv →
        (runCell s).out = (runCell s').out := by
  refine ⟨rfl, rfl, rfl, rfl, rfl, ?_⟩
  intro s' h1 h2 h3 h4
  show attnOut s.Wq s.Wk s.Wv s.x = attnOut s'.Wq s'.Wk s'.Wv s'.x
  rw [h1, h2, h3, h4]

/-- Witness for C8 on a concrete all-zero state. -/
theorem attention_cell_pure_witness :
    cell0.x = cell0.x ∧ (runCell cell0).out = (runCell cell0).out :=
  ⟨rfl, (attention_cell_pure 1 1 1 1 cell0).2.2.2.2.2 cell0 rfl rfl rfl rfl⟩

/-- Claim C9: for every string over the vocabulary, decoding the encoding
returns its character list, and encoding a string containing an
out-of-vocabulary character (here the NUL character) fails with a lookup
error rather than coercing. -/
theorem tokenizer_roundtrip :
    (∀ s : List Char, (∀ c ∈ s, c ∈ vocab) → (encode s).bind decode = some s)
    ∧ encode [Char.ofNat 0] = none :=
  ⟨fun s h => encode_decode_aux s h, by decide⟩

/-- Witness for C9 on the notebook's own text. -/
theorem tokenizer_roundtrip_witness :
    (∀ c ∈ text, c ∈ vocab) ∧ (encode text).bind decode = some text :=
  ⟨by decide, tokenizer_roundtrip.1 text (by decide)⟩

/-- Claim C10: `get_batch` returns two stacks of `block_size = 4` rows each
(the index tensor has shape `(block_size,)`, not `(batch_size,)` — the
declared `batch_size = 2` is not what sizes the batch), each row of length
`block_size`, and `y` is the one-position shift of `x`:
`y[n][t] = x[n][t+1]` for `t < block_size - 1`. -/
theorem get_batch_spec (ix : List ℕ)
    (hlen : ix.length = block_size)
    (hix : ∀ i ∈ ix, i < data.length - block_size - 1) :
    block_size = 4 ∧ batch_size = 2
    ∧ (get_batch ix).1.length = block_size
    ∧ (get_batch ix).2.length = block_size
    ∧ (∀ r ∈ (get_batch ix).1, r.length = block_size)
    ∧ (∀ r ∈ (get_batch ix).2, r.length = block_size)
    ∧ ∀ n t : ℕ, n < block_size → t < block_size - 1 →
        ((get_batch ix).2.getD n []).getD t 0
          = ((get_batch ix).1.getD n []).getD (t + 1) 0 := by
  have hd : data.length = 25 := by decide
  have hbs : block_size = 4 := rfl
  refine ⟨rfl, rfl, ?_, ?_, ?_, ?_, ?_⟩
  · simp [get_batch, hlen]
  · simp [get_batch, hlen]
  · intro r hr
    simp only [get_batch, List.mem_map] at hr
    obtain ⟨i, hi, rfl⟩ := hr
    have := hix i hi
    simp only [List.length_take, List.length_drop, hd, hbs] at this ⊢
    omega
  · intro r hr
    simp only [get_batch, List.mem_map] at hr
    obtain ⟨i, hi, rfl⟩ := hr
    have := hix i hi
    simp only [List.length_take, List.length_drop, hd, hbs] at this ⊢
    omega
  · intro n t hn ht
    have hnlen : n < ix.length := by omega
    have hq : ix[n]? = some ix[n] := List.getElem?_eq_getElem hnlen
    simp only [get_batch, List.getD_eq_getElem?_getD, List.getElem?_map, hq,
      Option.map_some', Option.getD_some, hbs]
    rw [hbs] at ht
    have ht1 : t < 4 := by omega
    have ht2 : t + 1 < 4 := by omega
    rw [List.getElem?_take_of_lt ht1, List.getElem?_take_of_lt ht2,
      List.getElem?_drop, List.getElem?_drop]
    have : ix[n] + 1 + t = ix[n] + (t + 1) := by omega
    rw [this]

/-- Witness for C10 with the concrete index tensor `[0, 5, 10, 15]`. -/
theorem get_batch_spec_witness :
    ([0, 5, 10, 15] : List ℕ).length = block_size
    ∧ (get_batch [0, 5, 10, 15]).1.length = block_size :=
  ⟨by decide, (get_batch_spec [0, 5, 10, 15] (by decide) (by decide)).2.2.1⟩

end UnpackTNN
